import Mathlib

/-!
Verification of the live-update worker (`worker-go/main.go`): the report
store read path, the change watcher, the client registry and the broadcast
dispatcher, embedded shallowly in Lean.

Machine integers of the source are modelled as `Int`/`Nat`, JSON numbers as
`Rat`, the stored report file as an `Option String` (present contents or
absent), and the JSON codec's field-presence behaviour for struct fields
without `omitempty` is modelled explicitly (absent field decodes to the zero
value; encoding always emits the field).
-/

namespace Worker

/-- Go struct `ScanResult` (worker-go/main.go:16-25). `Status` is a plain
`int` (zero value 0), not a pointer, and its JSON tag has no `omitempty`. -/
structure ScanResult where
  url : String
  status : Int
  securityHeaders : List (String × Option String)
  issues : List String
  severity : String
  errMsg : String
  responseTimeMs : Rat
  timestamp : String
deriving DecidableEq

/-- Go struct `Report` (worker-go/main.go:27-33). -/
structure Report where
  scanId : String
  timestamp : String
  durationSeconds : Rat
  totalTargets : Int
  results : List ScanResult
deriving DecidableEq

/-- The two failure classes of the report store read: the file does not
exist (`os.ReadFile` error) or its contents do not parse
(`json.Unmarshal` error). -/
inductive LoadErr where
  | notFound
  | corrupt
deriving DecidableEq

/-- `loadReport` (worker-go/main.go:35-45): read the stored file, parse it,
return the Report; on either failure return the error and no report.
The filesystem is modelled as the optional file contents, the JSON decoder
as a parameter `parse`. -/
def loadReport (parse : String → Option Report) (file : Option String) :
    Except LoadErr Report :=
  match file with
  | none => .error .notFound
  | some b =>
    match parse b with
    | none => .error .corrupt
    | some r => .ok r

/-- An HTTP response of the `/api/report` handler: success with a report
body, or failure with the load error surfaced. -/
inductive ApiResp where
  | success (code : Nat) (r : Report)
  | fail (code : Nat) (e : LoadErr)
deriving DecidableEq

/-- The `/api/report` handler (worker-go/main.go:136-144): on load error,
`http.Error` with status 500 carrying the error verbatim; on success,
status 200 with the encoded report. -/
def apiReport (parse : String → Option Report) (file : Option String) : ApiResp :=
  match loadReport parse file with
  | .error e => .fail 500 e
  | .ok r => .success 200 r

/-- A subscriber connection handle (`*websocket.Conn`), opaque. -/
abbrev Conn := Nat

/-- The observable state of the gateway: the registry set `clients`
(worker-go/main.go:62), the set of connections on which `Close()` has been
called, and the set of (connection, message) deliveries that succeeded. -/
structure GwState where
  clients : Finset Conn
  closed : Finset Conn
  delivered : Finset (Conn × String)
deriving DecidableEq

/-- `addClient` (worker-go/main.go:66-71): inserts unconditionally. -/
def addClient (c : Conn) (s : GwState) : GwState :=
  { s with clients := insert c s.clients }

/-- `removeClient` (worker-go/main.go:73-79): deletes from the registry and
closes the connection. -/
def removeClient (c : Conn) (s : GwState) : GwState :=
  { s with clients := s.clients.erase c, closed := insert c s.closed }

/-- One iteration of the `broadcast` loop body (worker-go/main.go:85-91)
for client `c`: attempt the send; on error delete `c` from the registry and
close it, otherwise the message is delivered. `fails` tells which
connections' transport is broken. -/
def sendStep (fails : Conn → Bool) (msg : String) (s : GwState) (c : Conn) : GwState :=
  if fails c then { s with clients := s.clients.erase c, closed := insert c s.closed }
  else { s with delivered := insert (c, msg) s.delivered }

/-- `broadcast` (worker-go/main.go:81-92): iterate over the registry in some
enumeration `order` of the map, applying the loop body to each client. -/
def broadcast (fails : Conn → Bool) (msg : String) (order : List Conn) (s : GwState) :
    GwState :=
  order.foldl (sendStep fails msg) s

lemma broadcast_nil (fails : Conn → Bool) (msg : String) (s : GwState) :
    broadcast fails msg [] s = s := rfl

lemma broadcast_cons (fails : Conn → Bool) (msg : String) (c : Conn) (t : List Conn)
    (s : GwState) :
    broadcast fails msg (c :: t) s = broadcast fails msg t (sendStep fails msg s c) := rfl

lemma mem_clients_broadcast (fails : Conn → Bool) (msg : String) :
    ∀ (order : List Conn) (s : GwState) (a : Conn),
      a ∈ (broadcast fails msg order s).clients ↔
        a ∈ s.clients ∧ ¬ (a ∈ order ∧ fails a = true) := by
  intro order
  induction order with
  | nil => intro s a; simp [broadcast_nil]
  | cons c t ih =>
    intro s a
    rw [broadcast_cons, ih]
    by_cases hf : fails c = true
    · simp only [sendStep, hf, if_true, List.mem_cons]
      by_cases hac : a = c
      · subst hac
        simp [Finset.mem_erase, hf]
      · simp [Finset.mem_erase, hac]
    · simp only [sendStep, hf, if_false, List.mem_cons]
      by_cases hac : a = c
      · subst hac; simp [hf]
      · simp [hac]

lemma mem_closed_broadcast (fails : Conn → Bool) (msg : String) :
    ∀ (order : List Conn) (s : GwState) (a : Conn),
      a ∈ (broadcast fails msg order s).closed ↔
        a ∈ s.closed ∨ (a ∈ order ∧ fails a = true) := by
  intro order
  induction order with
  | nil => intro s a; simp [broadcast_nil]
  | cons c t ih =>
    intro s a
    rw [broadcast_cons, ih]
    by_cases hf : fails c = true
    · simp only [sendStep, hf, if_true, List.mem_cons]
      by_cases hac : a = c
      · subst hac; simp [hf]
      · simp [hac]
    · simp only [sendStep, hf, if_false, List.mem_cons]
      by_cases hac : a = c
      · subst hac; simp [hf]
      · simp [hac]

lemma mem_delivered_broadcast (fails : Conn → Bool) (msg : String) :
    ∀ (order : List Conn) (s : GwState) (p : Conn × String),
      p ∈ (broadcast fails msg order s).delivered ↔
        p ∈ s.delivered ∨ (p.1 ∈ order ∧ fails p.1 = false ∧ p.2 = msg) := by
  intro order
  induction order with
  | nil => intro s p; simp [broadcast_nil]
  | cons c t ih =>
    intro t0 p
    rw [broadcast_cons, ih]
    by_cases hf : fails c = true
    · simp only [sendStep, if_pos hf, List.mem_cons]
      by_cases hac : p.1 = c
      · simp [hac, hf]
      · simp [hac]
    · simp only [sendStep, if_neg hf, List.mem_cons]
      by_cases hac : p.1 = c
      · constructor
        · intro h
          rcases h with h | h
          · rw [Finset.mem_insert] at h
            rcases h with h | h
            · exact Or.inr ⟨by rw [h]; exact Or.inl rfl, by rw [h]; simpa using hf,
                by rw [h]⟩
            · exact Or.inl h
          · exact Or.inr ⟨Or.inr h.1, h.2⟩
        · intro h
          rcases h with h | ⟨hm, hfa, hp2⟩
          · exact Or.inl (Finset.mem_insert_of_mem h)
          · rcases hm with hm | hm
            · refine Or.inl (Finset.mem_insert.mpr (Or.inl ?_))
              cases p with
              | mk p1 p2 => simp only at hac hp2; rw [hac, hp2]
            · exact Or.inr ⟨hm, hfa, hp2⟩
      · constructor
        · intro h
          rcases h with h | h
          · rw [Finset.mem_insert] at h
            rcases h with h | h
            · exact absurd (congrArg Prod.fst h) hac
            · exact Or.inl h
          · exact Or.inr ⟨Or.inr h.1, h.2⟩
        · intro h
          rcases h with h | ⟨hm, hfa, hp2⟩
          · exact Or.inl (Finset.mem_insert_of_mem h)
          · rcases hm with hm | hm
            · exact absurd hm hac
            · exact Or.inr ⟨hm, hfa, hp2⟩

/-- The change watcher's state (worker-go/main.go:94-107): `last` is the
last-observed modification marker (`var last time.Time`, zero value 0); the
gateway state is carried so a signalled change can fan out. Modification
times are modelled as `Nat` markers, `time.Time.After` as `<`. -/
structure WatchState where
  last : Nat
  gw : GwState
deriving DecidableEq

/-- The watcher starts with the zero marker (`var last time.Time`). -/
def initialWatch (g : GwState) : WatchState := ⟨0, g⟩

/-- One iteration of the `watchReport` polling loop (worker-go/main.go:96-106):
`observed` is `none` when `os.Stat` fails, otherwise the file's modification
marker. On a strict advance the marker is recorded and `"reload"` is
broadcast; the returned Bool tells whether a change event was signalled. -/
def pollStep (fails : Conn → Bool) (order : List Conn) (observed : Option Nat)
    (w : WatchState) : WatchState × Bool :=
  match observed with
  | none => (w, false)
  | some m =>
    if w.last < m then (⟨m, broadcast fails "reload" order w.gw⟩, true)
    else (w, false)

/-- The outcome of one `conn.ReadMessage()` call in the `/ws` read loop:
a message arrived, or the read failed / the peer closed. -/
inductive ReadRes where
  | msg
  | fail
deriving DecidableEq

/-- The `/ws` handler's read loop (worker-go/main.go:128-133): keep reading;
on the first failed read, remove the client and break. The connection's
incoming reads are modelled as the list of outcomes the loop consumes. -/
def wsLoop (conn : Conn) : List ReadRes → GwState → GwState
  | [], s => s
  | ReadRes.msg :: t, s => wsLoop conn t s
  | ReadRes.fail :: _, s => removeClient conn s

/-- The `/ws` handler (worker-go/main.go:120-134) after a successful
upgrade: register the connection, then run the read loop. -/
def wsHandler (conn : Conn) (reads : List ReadRes) (s : GwState) : GwState :=
  wsLoop conn reads (addClient conn s)

lemma wsLoop_of_fail_mem (conn : Conn) :
    ∀ (reads : List ReadRes) (s : GwState), ReadRes.fail ∈ reads →
      wsLoop conn reads s = removeClient conn s := by
  intro reads
  induction reads with
  | nil => intro s h; cases h
  | cons r t ih =>
    intro s h
    cases r with
    | msg =>
      have ht : ReadRes.fail ∈ t := by
        rcases List.mem_cons.mp h with h1 | h1
        · cases h1
        · exact h1
      exact ih s ht
    | fail => rfl

/-- The event alphabet of the lock-discipline traces: acquiring/releasing
`clientsMu`, a mutation of the `clients` map, a `WriteMessage` attempt, a
`Close` call. -/
inductive Ev where
  | lock
  | unlock
  | mutate
  | send
  | close
deriving DecidableEq

/-- The lock/mutation trace of `addClient` (worker-go/main.go:66-71):
`clientsMu.Lock()`, the map insert, deferred `Unlock()`. -/
def addClientTrace : List Ev := [Ev.lock, Ev.mutate, Ev.unlock]

/-- The lock/mutation trace of `removeClient` (worker-go/main.go:73-79):
`Lock()`, the map delete, `Close()`, deferred `Unlock()`. -/
def removeClientTrace : List Ev := [Ev.lock, Ev.mutate, Ev.close, Ev.unlock]

/-- The events of the `broadcast` loop body (worker-go/main.go:85-91) over
one enumeration of the registry: each client gets one send attempt; a
failing send is followed by the map delete and the close. -/
def broadcastBody (fails : Conn → Bool) : List Conn → List Ev
  | [] => []
  | c :: t =>
    (if fails c then [Ev.send, Ev.mutate, Ev.close] else [Ev.send]) ++ broadcastBody fails t

/-- The lock/mutation trace of `broadcast` (worker-go/main.go:81-92):
`Lock()`, the whole fan-out pass, deferred `Unlock()`. -/
def broadcastTrace (fails : Conn → Bool) (order : List Conn) : List Ev :=
  Ev.lock :: (broadcastBody fails order ++ [Ev.unlock])

/-- `guarded tr d = true` iff, starting from lock depth `d`, every map
mutation in `tr` happens while the lock is held and no unlock happens
without the lock held. -/
def guarded : List Ev → Nat → Bool
  | [], _ => true
  | Ev.lock :: t, d => guarded t (d + 1)
  | Ev.unlock :: t, d => decide (0 < d) && guarded t (d - 1)
  | Ev.mutate :: t, d => decide (0 < d) && guarded t d
  | Ev.send :: t, d => guarded t d
  | Ev.close :: t, d => guarded t d

/-- No lock operation at all occurs in the trace. -/
def lockFree (tr : List Ev) : Bool :=
  tr.all fun e => !(e == Ev.lock) && !(e == Ev.unlock)

lemma guarded_broadcastBody_append (fails : Conn → Bool) :
    ∀ (order : List Conn) (rest : List Ev) (d : Nat), 0 < d →
      guarded (broadcastBody fails order ++ rest) d = guarded rest d := by
  intro order
  induction order with
  | nil => intro rest d _; rfl
  | cons c t ih =>
    intro rest d hd
    by_cases hf : fails c
    · simp only [broadcastBody, if_pos hf, List.append_assoc, List.cons_append,
        List.nil_append, guarded, decide_eq_true hd, Bool.true_and]
      exact ih rest d hd
    · simp only [broadcastBody, if_neg hf, List.cons_append, List.nil_append, guarded]
      exact ih rest d hd

lemma lockFree_broadcastBody (fails : Conn → Bool) :
    ∀ order : List Conn, lockFree (broadcastBody fails order) = true := by
  intro order
  induction order with
  | nil => rfl
  | cons c t ih =>
    by_cases hf : fails c
    · simp only [broadcastBody, if_pos hf, lockFree, List.all_append, List.all_cons,
        List.all_nil, Bool.and_true]
      simpa [lockFree] using ih
    · simp only [broadcastBody, if_neg hf, lockFree, List.all_append, List.all_cons,
        List.all_nil, Bool.and_true]
      simpa [lockFree] using ih

/-- A stored JSON object for one `ScanResult`, with field presence tracked:
`none` means the field is absent from the stored JSON. -/
structure ScanResultJson where
  url : Option String
  status : Option Int
  securityHeaders : Option (List (String × Option String))
  issues : Option (List String)
  severity : Option String
  errMsg : Option String
  responseTimeMs : Option Rat
  timestamp : Option String
deriving DecidableEq

/-- A stored JSON object for a `Report`, with field presence tracked. -/
structure ReportJson where
  scanId : Option String
  timestamp : Option String
  durationSeconds : Option Rat
  totalTargets : Option Int
  results : Option (List ScanResultJson)
deriving DecidableEq

/-- `json.Unmarshal` into the Go struct `ScanResult`: an absent field leaves
the field's zero value (0 for the plain `int` `Status`, empty for strings,
nil for slices/maps). -/
def decodeScanResult (j : ScanResultJson) : ScanResult where
  url := j.url.getD ""
  status := j.status.getD 0
  securityHeaders := j.securityHeaders.getD []
  issues := j.issues.getD []
  severity := j.severity.getD ""
  errMsg := j.errMsg.getD ""
  responseTimeMs := j.responseTimeMs.getD 0
  timestamp := j.timestamp.getD ""

/-- `json.Marshal`/`Encode` of the Go struct `ScanResult`: no field's tag
has `omitempty` and none is a pointer, so every field is emitted. -/
def encodeScanResult (r : ScanResult) : ScanResultJson where
  url := some r.url
  status := some r.status
  securityHeaders := some r.securityHeaders
  issues := some r.issues
  severity := some r.severity
  errMsg := some r.errMsg
  responseTimeMs := some r.responseTimeMs
  timestamp := some r.timestamp

/-- `json.Unmarshal` into the Go struct `Report`. -/
def decodeReport (j : ReportJson) : Report where
  scanId := j.scanId.getD ""
  timestamp := j.timestamp.getD ""
  durationSeconds := j.durationSeconds.getD 0
  totalTargets := j.totalTargets.getD 0
  results := (j.results.getD []).map decodeScanResult

/-- `json.Marshal`/`Encode` of the Go struct `Report`. -/
def encodeReport (r : Report) : ReportJson where
  scanId := some r.scanId
  timestamp := some r.timestamp
  durationSeconds := some r.durationSeconds
  totalTargets := some r.totalTargets
  results := some (r.results.map encodeScanResult)

/-- The JSON the `/api/report` handler serves for a stored report object:
decode into the Go structs (worker-go/main.go:40-43), then re-encode
(worker-go/main.go:143). -/
def servedReport (j : ReportJson) : ReportJson :=
  encodeReport (decodeReport j)

/-- A stored probe result of a transport failure, as the spec describes it:
`status` absent, `error` set, empty issues. -/
def failedProbeJson : ScanResultJson where
  url := some "http://api.example.com"
  status := none
  securityHeaders := none
  issues := some []
  severity := some "error"
  errMsg := some "connection refused"
  responseTimeMs := none
  timestamp := some "2024-01-01T00:00:00"

/-- A stored report holding the one transport-failure probe result. -/
def storedFailureReport : ReportJson where
  scanId := some "scan-1"
  timestamp := some "2024-01-01T00:00:00"
  durationSeconds := some 2
  totalTargets := some 1
  results := some [failedProbeJson]

/-- `countSeverity` (worker-go/main.go:47-55): count the results whose
`Severity` equals `sev`, by a fold mirroring the Go accumulation loop. -/
def countSeverity (results : List ScanResult) (sev : String) : Nat :=
  results.foldl (fun c r => if r.severity = sev then c + 1 else c) 0

lemma foldl_count (p : ScanResult → Prop) [DecidablePred p] :
    ∀ (l : List ScanResult) (n : Nat),
      l.foldl (fun c r => if p r then c + 1 else c) n =
        n + (l.filter fun r => decide (p r)).length := by
  intro l
  induction l with
  | nil => intro n; simp
  | cons r t ih =>
    intro n
    by_cases hp : p r
    · simp [List.filter_cons, hp, ih]
      omega
    · simp [List.filter_cons, hp, ih]

lemma countSeverity_eq_filter_length (results : List ScanResult) (sev : String) :
    countSeverity results sev =
      (results.filter fun r => decide (r.severity = sev)).length := by
  simpa using foldl_count (fun r => r.severity = sev) results 0

/-- C3: the on-demand report read returns the stored Report exactly when the
stored content exists and parses; it fails with NotFound exactly when the
file is absent and with Corrupt exactly when the content does not parse, the
`/api/report` handler surfaces the failure verbatim with status 500, and no
report accompanies a failure. -/
theorem loadReport_spec (parse : String → Option Report) (file : Option String) :
    (loadReport parse file = .error .notFound ↔ file = none) ∧
    (loadReport parse file = .error .corrupt ↔
      ∃ b, file = some b ∧ parse b = none) ∧
    (∀ r, loadReport parse file = .ok r ↔
      ∃ b, file = some b ∧ parse b = some r) ∧
    (∀ e, apiReport parse file = .fail 500 e ↔ loadReport parse file = .error e) ∧
    (∀ r, apiReport parse file = .success 200 r ↔ loadReport parse file = .ok r) := by
  cases file with
  | none => simp [loadReport, apiReport]
  | some b => cases hp : parse b <;> simp [loadReport, apiReport, hp]

/-- C5: unregistering removes the connection when present, leaves the
registry unchanged when absent, and is idempotent on the registry set. -/
theorem removeClient_idempotent (c : Conn) (s : GwState) :
    (removeClient c s).clients = s.clients.erase c ∧
    c ∉ (removeClient c s).clients ∧
    (c ∉ s.clients → (removeClient c s).clients = s.clients) ∧
    (removeClient c (removeClient c s)).clients = (removeClient c s).clients := by
  refine ⟨rfl, Finset.not_mem_erase c _, fun h => Finset.erase_eq_self.mpr h, ?_⟩
  show (s.clients.erase c).erase c = s.clients.erase c
  exact Finset.erase_idem

/-- C6: registering always succeeds and adds the connection unconditionally;
afterwards the connection is a member of the registry and the reported size
counts it. -/
theorem addClient_always_registers (c : Conn) (s : GwState) :
    (addClient c s).clients = insert c s.clients ∧
    c ∈ (addClient c s).clients ∧
    (addClient c s).clients.card =
      (if c ∈ s.clients then s.clients.card else s.clients.card + 1) ∧
    1 ≤ (addClient c s).clients.card := by
  refine ⟨rfl, Finset.mem_insert_self c _, ?_, ?_⟩
  · show (insert c s.clients).card = _
    split_ifs with h
    · exact Finset.card_insert_of_mem h
    · exact Finset.card_insert_of_not_mem h
  · exact Finset.card_pos.mpr ⟨c, Finset.mem_insert_self c _⟩

lemma countSeverity_cons (r : ScanResult) (t : List ScanResult) (sev : String) :
    countSeverity (r :: t) sev =
      (if r.severity = sev then 1 else 0) + countSeverity t sev := by
  rw [countSeverity_eq_filter_length, countSeverity_eq_filter_length, List.filter_cons]
  by_cases h : r.severity = sev
  · simp [h]
    omega
  · simp [h]

lemma countSeverity_four_sum (results : List ScanResult)
    (hall : ∀ r ∈ results, r.severity = "high" ∨ r.severity = "medium" ∨
      r.severity = "info" ∨ r.severity = "error") :
    countSeverity results "high" + countSeverity results "medium" +
      countSeverity results "info" + countSeverity results "error" =
      results.length := by
  induction results with
  | nil => rfl
  | cons r t ih =>
    have hr := hall r (List.mem_cons_self r t)
    have ih' := ih fun x hx => hall x (List.mem_cons_of_mem r hx)
    rw [countSeverity_cons, countSeverity_cons, countSeverity_cons, countSeverity_cons,
      List.length_cons]
    rcases hr with h | h | h | h <;> rw [h]
    · rw [if_pos rfl, if_neg (by decide), if_neg (by decide), if_neg (by decide)]
      omega
    · rw [if_neg (by decide), if_pos rfl, if_neg (by decide), if_neg (by decide)]
      omega
    · rw [if_neg (by decide), if_neg (by decide), if_pos rfl, if_neg (by decide)]
      omega
    · rw [if_neg (by decide), if_neg (by decide), if_neg (by decide), if_pos rfl]
      omega

/-- C10: `countSeverity` counts exactly the results whose severity equals
the given string, and when every result's severity is one of "high",
"medium", "info", "error", the four counts sum to the list's length. -/
theorem countSeverity_correct (results : List ScanResult) (sev : String) :
    countSeverity results sev =
      (results.filter fun r => decide (r.severity = sev)).length ∧
    ((∀ r ∈ results, r.severity = "high" ∨ r.severity = "medium" ∨
        r.severity = "info" ∨ r.severity = "error") →
      countSeverity results "high" + countSeverity results "medium" +
        countSeverity results "info" + countSeverity results "error" =
        results.length) :=
  ⟨countSeverity_eq_filter_length results sev, countSeverity_four_sum results⟩

/-- C8 counterexample: a stored report whose one probe result is a transport
failure (its `status` field absent, `error` set) is served by `/api/report`
with the `status` field present as the value 0, not absent. -/
theorem served_status_present_zero_cex :
    ((servedReport storedFailureReport).results.getD []).map ScanResultJson.status
        = [some (0 : Int)] ∧
    ((servedReport storedFailureReport).results.getD []).map ScanResultJson.status
        ≠ [(none : Option Int)] := by
  constructor
  · rfl
  · decide

/-- C8 amended: in every Probe Result of a Report returned by the on-demand
report read, the `status` field is always present as an integer; a stored
result whose status is absent (transport failure) is served with status 0
rather than with the field absent. -/
theorem served_status_always_present (j : ReportJson) :
    (∀ sj ∈ (servedReport j).results.getD [], ∃ n : Int, sj.status = some n) ∧
    (∀ sj : ScanResultJson, (encodeScanResult (decodeScanResult sj)).status
        = some (sj.status.getD 0)) := by
  constructor
  · intro sj hsj
    simp only [servedReport, encodeReport, decodeReport, Option.getD_some,
      List.mem_map] at hsj
    obtain ⟨r, _, hr⟩ := hsj
    exact ⟨r.status, by rw [← hr]; rfl⟩
  · intro sj
    rfl

/-- C1: in a broadcast pass over a registry in which exactly one client's
send fails, that client is removed from the registry and closed, every other
registered client receives the token, the iteration is never stopped by the
failure, and the registry's size drops by one. -/
theorem broadcast_single_failure_isolated
    (fails : Conn → Bool) (msg : String) (order : List Conn) (s : GwState) (b : Conn)
    (henum : order.toFinset = s.clients)
    (hb : b ∈ s.clients) (hfb : fails b = true)
    (honly : ∀ c ∈ s.clients, fails c = true → c = b) :
    (broadcast fails msg order s).clients = s.clients.erase b ∧
    b ∉ (broadcast fails msg order s).clients ∧
    b ∈ (broadcast fails msg order s).closed ∧
    (∀ c ∈ s.clients, c ≠ b → (c, msg) ∈ (broadcast fails msg order s).delivered) ∧
    (broadcast fails msg order s).clients.card = s.clients.card - 1 := by
  have hmemord : ∀ a, a ∈ order ↔ a ∈ s.clients := by
    intro a
    rw [← henum, List.mem_toFinset]
  have hcl : (broadcast fails msg order s).clients = s.clients.erase b := by
    ext a
    rw [mem_clients_broadcast, Finset.mem_erase]
    constructor
    · rintro ⟨ha, hno⟩
      refine ⟨?_, ha⟩
      intro hab
      exact hno ⟨(hmemord a).mpr ha, by rw [hab]; exact hfb⟩
    · rintro ⟨hab, ha⟩
      refine ⟨ha, ?_⟩
      rintro ⟨-, hfa⟩
      exact hab (honly a ha hfa)
  refine ⟨hcl, ?_, ?_, ?_, ?_⟩
  · rw [hcl]
    exact Finset.not_mem_erase b _
  · rw [mem_closed_broadcast]
    exact Or.inr ⟨(hmemord b).mpr hb, hfb⟩
  · intro c hc hcb
    rw [mem_delivered_broadcast]
    refine Or.inr ⟨(hmemord c).mpr hc, ?_, rfl⟩
    cases hfc : fails c with
    | false => rfl
    | true => exact absurd (honly c hc hfc) hcb
  · rw [hcl]
    exact Finset.card_erase_of_mem hb

/-- C1 witness: three registered clients 1, 2, 3; client 2's send fails. -/
theorem broadcast_single_failure_isolated_witness :
    (broadcast (fun c => c == 2) "reload" [1, 2, 3]
        (⟨{1, 2, 3}, ∅, ∅⟩ : GwState)).clients = ({1, 2, 3} : Finset Conn).erase 2 ∧
    2 ∉ (broadcast (fun c => c == 2) "reload" [1, 2, 3]
        (⟨{1, 2, 3}, ∅, ∅⟩ : GwState)).clients ∧
    2 ∈ (broadcast (fun c => c == 2) "reload" [1, 2, 3]
        (⟨{1, 2, 3}, ∅, ∅⟩ : GwState)).closed ∧
    (∀ c ∈ ({1, 2, 3} : Finset Conn), c ≠ 2 → (c, "reload") ∈
      (broadcast (fun c => c == 2) "reload" [1, 2, 3]
        (⟨{1, 2, 3}, ∅, ∅⟩ : GwState)).delivered) ∧
    (broadcast (fun c => c == 2) "reload" [1, 2, 3]
        (⟨{1, 2, 3}, ∅, ∅⟩ : GwState)).clients.card =
      ({1, 2, 3} : Finset Conn).card - 1 :=
  broadcast_single_failure_isolated (fun c => c == 2) "reload" [1, 2, 3]
    ⟨{1, 2, 3}, ∅, ∅⟩ 2 (by decide) (by decide) (by decide) (by decide)

/-- C2: one poll step of the change watcher signals exactly one change event
when the observed marker strictly advances, in which case the literal token
"reload" is delivered to every currently registered client (their transports
being up); on an equal or regressed marker, or when the stat fails, no event
is signalled and nothing changes. -/
theorem pollStep_signal_spec (fails : Conn → Bool) (order : List Conn) (w : WatchState)
    (henum : order.toFinset = w.gw.clients)
    (hok : ∀ c ∈ w.gw.clients, fails c = false) :
    (∀ m, w.last < m →
      (pollStep fails order (some m) w).2 = true ∧
      (pollStep fails order (some m) w).1.last = m ∧
      (∀ c ∈ w.gw.clients,
        (c, "reload") ∈ (pollStep fails order (some m) w).1.gw.delivered)) ∧
    (∀ m, ¬ w.last < m → pollStep fails order (some m) w = (w, false)) ∧
    pollStep fails order none w = (w, false) := by
  refine ⟨?_, ?_, rfl⟩
  · intro m hm
    simp only [pollStep, if_pos hm]
    refine ⟨trivial, trivial, ?_⟩
    intro c hc
    rw [mem_delivered_broadcast]
    refine Or.inr ⟨?_, hok c hc, rfl⟩
    rw [← henum] at hc
    exact List.mem_toFinset.mp hc
  · intro m hm
    simp only [pollStep, if_neg hm]

/-- C2 witness: two healthy registered clients, marker advancing 0 → 3. -/
theorem pollStep_signal_spec_witness :
    (∀ m, (⟨0, ⟨{1, 2}, ∅, ∅⟩⟩ : WatchState).last < m →
      (pollStep (fun _ => false) [1, 2] (some m)
        (⟨0, ⟨{1, 2}, ∅, ∅⟩⟩ : WatchState)).2 = true ∧
      (pollStep (fun _ => false) [1, 2] (some m)
        (⟨0, ⟨{1, 2}, ∅, ∅⟩⟩ : WatchState)).1.last = m ∧
      (∀ c ∈ ({1, 2} : Finset Conn),
        (c, "reload") ∈ (pollStep (fun _ => false) [1, 2] (some m)
          (⟨0, ⟨{1, 2}, ∅, ∅⟩⟩ : WatchState)).1.gw.delivered)) ∧
    (∀ m, ¬ (⟨0, ⟨{1, 2}, ∅, ∅⟩⟩ : WatchState).last < m →
      pollStep (fun _ => false) [1, 2] (some m) (⟨0, ⟨{1, 2}, ∅, ∅⟩⟩ : WatchState) =
        (⟨0, ⟨{1, 2}, ∅, ∅⟩⟩, false)) ∧
    pollStep (fun _ => false) [1, 2] none (⟨0, ⟨{1, 2}, ∅, ∅⟩⟩ : WatchState) =
      (⟨0, ⟨{1, 2}, ∅, ∅⟩⟩, false) :=
  pollStep_signal_spec (fun _ => false) [1, 2] ⟨0, ⟨{1, 2}, ∅, ∅⟩⟩
    (by decide) (by decide)

/-- C9: from the watcher's initial state (zero marker), a report file that
already exists with a positive modification marker makes the very first poll
signal a change and broadcast the token to all registered clients. -/
theorem pollStep_initial_preexisting (g : GwState) (fails : Conn → Bool)
    (order : List Conn) (m : Nat)
    (henum : order.toFinset = g.clients)
    (hok : ∀ c ∈ g.clients, fails c = false)
    (hm : 0 < m) :
    (pollStep fails order (some m) (initialWatch g)).2 = true ∧
    (pollStep fails order (some m) (initialWatch g)).1.last = m ∧
    ∀ c ∈ g.clients,
      (c, "reload") ∈ (pollStep fails order (some m) (initialWatch g)).1.gw.delivered := by
  simp only [pollStep, initialWatch, if_pos hm]
  refine ⟨trivial, trivial, ?_⟩
  intro c hc
  rw [mem_delivered_broadcast]
  refine Or.inr ⟨?_, hok c hc, rfl⟩
  rw [← henum] at hc
  exact List.mem_toFinset.mp hc

/-- C9 witness: one registered client, pre-existing file with marker 5. -/
theorem pollStep_initial_preexisting_witness :
    (pollStep (fun _ => false) [1] (some 5)
      (initialWatch (⟨{1}, ∅, ∅⟩ : GwState))).2 = true ∧
    (pollStep (fun _ => false) [1] (some 5)
      (initialWatch (⟨{1}, ∅, ∅⟩ : GwState))).1.last = 5 ∧
    ∀ c ∈ ({1} : Finset Conn),
      (c, "reload") ∈ (pollStep (fun _ => false) [1] (some 5)
        (initialWatch (⟨{1}, ∅, ∅⟩ : GwState))).1.gw.delivered :=
  pollStep_initial_preexisting ⟨{1}, ∅, ∅⟩ (fun _ => false) [1] 5
    (by decide) (by decide) (by decide)

/-- C7: when a subscriber's read loop observes a failed read, the gateway
removes the connection from the registry and closes it, and the session ends
there (the handler's final state is exactly the removal applied once, a
terminal state the loop never leaves). -/
theorem wsHandler_disconnect_terminal (conn : Conn) (reads : List ReadRes) (s : GwState)
    (hfail : ReadRes.fail ∈ reads) :
    wsHandler conn reads s = removeClient conn (addClient conn s) ∧
    conn ∉ (wsHandler conn reads s).clients ∧
    conn ∈ (wsHandler conn reads s).closed := by
  have h : wsHandler conn reads s = removeClient conn (addClient conn s) :=
    wsLoop_of_fail_mem conn reads (addClient conn s) hfail
  refine ⟨h, ?_, ?_⟩
  · rw [h]
    exact Finset.not_mem_erase conn _
  · rw [h]
    exact Finset.mem_insert_self conn _

/-- C7 witness: connection 7 reads one message, then the read fails. -/
theorem wsHandler_disconnect_terminal_witness :
    wsHandler 7 [ReadRes.msg, ReadRes.fail] (⟨∅, ∅, ∅⟩ : GwState) =
      removeClient 7 (addClient 7 ⟨∅, ∅, ∅⟩) ∧
    7 ∉ (wsHandler 7 [ReadRes.msg, ReadRes.fail] (⟨∅, ∅, ∅⟩ : GwState)).clients ∧
    7 ∈ (wsHandler 7 [ReadRes.msg, ReadRes.fail] (⟨∅, ∅, ∅⟩ : GwState)).closed :=
  wsHandler_disconnect_terminal 7 [ReadRes.msg, ReadRes.fail] ⟨∅, ∅, ∅⟩ (by decide)

/-- C4: every registry mutation in `addClient`, `removeClient` and
`broadcast` happens with the one registry mutex held, and `broadcast`'s
trace is a single critical section — one acquire at the start, one release
at the end, none anywhere inside the fan-out pass. -/
theorem registry_mutations_locked (fails : Conn → Bool) (order : List Conn) :
    guarded addClientTrace 0 = true ∧
    guarded removeClientTrace 0 = true ∧
    guarded (broadcastTrace fails order) 0 = true ∧
    broadcastTrace fails order = Ev.lock :: (broadcastBody fails order ++ [Ev.unlock]) ∧
    lockFree (broadcastBody fails order) = true := by
  refine ⟨rfl, rfl, ?_, rfl, lockFree_broadcastBody fails order⟩
  show guarded (broadcastBody fails order ++ [Ev.unlock]) 1 = true
  rw [guarded_broadcastBody_append fails order [Ev.unlock] 1 Nat.one_pos]
  rfl

end Worker
